import Mathlib

/-!
Verification of the go-sourcemap consumer (vendor/github.com/go-sourcemap/sourcemap/consumer.go).

The Go code is shallowly embedded: Go `int` becomes `Int`, pointers become `Option`,
fallible functions return `Except`, and the in-place mutation of `sourceMap` during
`parse` becomes explicit state passing.  Go standard library helpers (`path.Clean`,
`path.Join`, `path.Dir`, `net/url.Parse`, `net/url.URL.String`) are modelled on
`List Char` so that every definition evaluates by kernel reduction; the URL model
covers the scheme/host/path (and opaque) forms the consumer exercises and does not
model percent-escaping, query, fragment or userinfo components.
-/

namespace sourcemap

/-- Error taxonomy of construction: the version error produced by `checkVersion`
(carrying the offending value), the url parse error for a raw string whose first
character is a colon, and the mapping decode error. -/
inductive SmErr where
  | unsupportedVersion (got : Int)
  | missingProtocolScheme (rawURL : String)
  | malformedMappings
deriving DecidableEq, Repr

instance {ε α : Type} [DecidableEq ε] [DecidableEq α] : DecidableEq (Except ε α) := fun x y =>
  match x, y with
  | Except.error e1, Except.error e2 =>
    match decEq e1 e2 with
    | isTrue h => isTrue (congrArg Except.error h)
    | isFalse h => isFalse (fun hh => h (Except.error.inj hh))
  | Except.ok a1, Except.ok a2 =>
    match decEq a1 a2 with
    | isTrue h => isTrue (congrArg Except.ok h)
    | isFalse h => isFalse (fun hh => h (Except.ok.inj hh))
  | Except.error _, Except.ok _ => isFalse (fun hh => Except.noConfusion hh)
  | Except.ok _, Except.error _ => isFalse (fun hh => Except.noConfusion hh)

/-- Entry of the `names` array: Go stores `[]interface{}` decoded from JSON, each
entry a string or a number.  Numbers are modelled as exact integers: for an
integer-valued float64, `strconv.FormatFloat(v, (char) f, -1, 64)` (shortest
round-tripping decimal, fixed notation) prints exactly the decimal integer text. -/
inductive NameEntry where
  | str (s : String)
  | num (n : Int)
deriving DecidableEq, Repr, Inhabited

/-- Rendering of a `names` entry as done in `Consumer.source` (consumer.go lines
179-188): strings pass through; a float64 renders via `strconv.FormatFloat` with
shortest fixed-notation decimal, which for the integers we model is `toString n`. -/
def renderName : NameEntry → String
  | NameEntry.str s => s
  | NameEntry.num n => toString n

/-- Modelled from the spec: the decoded MappingRecord (spec section 3).  The Go
struct `mapping` lives in a repository file that is not among the sources; its
fields are named after their uses in consumer.go, and per the `>= 0` guards there
a negative index is the "absent" sentinel. -/
structure mapping where
  genLine : Int
  genColumn : Int
  sourcesInd : Int
  sourceLine : Int
  sourceColumn : Int
  namesInd : Int
deriving DecidableEq, Repr, Inhabited

/-- Lexicographic non-strict order on generated positions. -/
def posLe (l1 c1 l2 c2 : Int) : Prop :=
  l1 < l2 ∨ (l1 = l2 ∧ c1 ≤ c2)

/-- Lexicographic strict order on generated positions. -/
def posLt (l1 c1 l2 c2 : Int) : Prop :=
  l1 < l2 ∨ (l1 = l2 ∧ c1 < c2)

instance (l1 c1 l2 c2 : Int) : Decidable (posLe l1 c1 l2 c2) :=
  inferInstanceAs (Decidable (l1 < l2 ∨ (l1 = l2 ∧ c1 ≤ c2)))

instance (l1 c1 l2 c2 : Int) : Decidable (posLt l1 c1 l2 c2) :=
  inferInstanceAs (Decidable (l1 < l2 ∨ (l1 = l2 ∧ c1 < c2)))

/-- The records of a sub-map listed in non-decreasing lexicographic
`(genLine, genColumn)` order (the sortedness invariant of spec section 3). -/
def SortedMappings (ms : List mapping) : Prop :=
  List.Pairwise (fun a b => posLe a.genLine a.genColumn b.genLine b.genColumn) ms

/-- Strictly increasing generated positions: no two records share a position. -/
def StrictSortedMappings (ms : List mapping) : Prop :=
  List.Pairwise (fun a b => posLt a.genLine a.genColumn b.genLine b.genColumn) ms

instance (ms : List mapping) : Decidable (SortedMappings ms) :=
  inferInstanceAs (Decidable (List.Pairwise
    (fun (a b : mapping) => posLe a.genLine a.genColumn b.genLine b.genColumn) ms))

instance (ms : List mapping) : Decidable (StrictSortedMappings ms) :=
  inferInstanceAs (Decidable (List.Pairwise
    (fun (a b : mapping) => posLt a.genLine a.genColumn b.genLine b.genColumn) ms))

/-! Go `path` package helpers, modelled on character lists. -/

/-- Split a character list on a separator character; models `strings.Split`. -/
def splitOnChar (sep : Char) : List Char → List (List Char)
  | [] => [[]]
  | c :: rest =>
    match splitOnChar sep rest with
    | [] => [[c]]
    | g :: gs => if c = sep then [] :: g :: gs else (c :: g) :: gs

/-- Stack-based processing of path components, equivalent to the lazybuf loop of
Go `path.Clean`: drop empty and dot components, resolve a dot-dot against the
preceding component, keep leading dot-dots only in relative paths. -/
def cleanComps (rooted : Bool) : List String → List String → List String
  | stack, [] => stack.reverse
  | stack, comp :: rest =>
    if comp = "" ∨ comp = "." then cleanComps rooted stack rest
    else if comp = ".." then
      match stack with
      | top :: stack2 =>
        if top = ".." then cleanComps rooted (comp :: top :: stack2) rest
        else cleanComps rooted stack2 rest
      | [] => if rooted then cleanComps rooted [] rest else cleanComps rooted [".."] rest
    else cleanComps rooted (comp :: stack) rest

/-- Join a list of strings with a separator; models `strings.Join`. -/
def joinWith (sep : String) : List String → String
  | [] => ""
  | [s] => s
  | s :: rest => s ++ sep ++ joinWith sep rest

/-- Starts-with-slash test on the underlying characters. -/
def startsWithSlash : List Char → Bool
  | '/' :: _ => true
  | _ => false

/-- Go `path.IsAbs`: the path begins with a slash. -/
def pathIsAbs (p : String) : Bool :=
  startsWithSlash p.toList

/-- Go `path.Clean` (lexical cleaning of slash-separated paths). -/
def pathClean (p : String) : String :=
  if p = "" then "."
  else
    let rooted := pathIsAbs p
    let comps := cleanComps rooted [] ((splitOnChar '/' p.toList).map String.mk)
    let out := joinWith "/" comps
    if rooted then (if out = "" then "/" else "/" ++ out)
    else (if out = "" then "." else out)

/-- Go `path.Join` restricted to two elements, as used by consumer.go: join the
non-empty elements with a slash and clean the result. -/
def pathJoin (a b : String) : String :=
  if a ≠ "" then pathClean (a ++ "/" ++ b)
  else if b ≠ "" then pathClean b
  else ""

/-- Keep everything up to and including the final slash; models the first half of
Go `path.Split`. -/
def dropAfterLastSlash (cs : List Char) : List Char :=
  ((cs.reverse.dropWhile (fun c => c ≠ '/')).reverse)

/-- Go `path.Dir`: all but the last path element, cleaned. -/
def pathDir (p : String) : String :=
  pathClean (String.mk (dropAfterLastSlash p.toList))

/-! Go `net/url` model. -/

/-- URL structural representation with the components the consumer uses.
`OpaquePart` models the `Opaque` field of `net/url.URL`. -/
structure GoURL where
  Scheme : String
  OpaquePart : String
  Host : String
  Path : String
deriving DecidableEq, Repr, Inhabited

/-- Result of scheme extraction, mirroring the outcomes of `net/url` getScheme. -/
inductive SchemeRes where
  | noScheme
  | missingScheme
  | schemeFound (sch : List Char) (rest : List Char)
deriving DecidableEq, Repr

/-- Scheme scanner of `net/url` getScheme: letters may appear anywhere in a
scheme, digits and plus/minus/dot only after the first character, a colon ends
the scheme (an immediate colon is the missing-protocol-scheme error), and any
other character means the string has no scheme. -/
def getSchemeAux (seen : List Char) : List Char → SchemeRes
  | [] => SchemeRes.noScheme
  | c :: rest =>
    if ('a' ≤ c ∧ c ≤ 'z') ∨ ('A' ≤ c ∧ c ≤ 'Z') then getSchemeAux (c :: seen) rest
    else if ('0' ≤ c ∧ c ≤ '9') ∨ c = '+' ∨ c = '-' ∨ c = '.' then
      (if seen.isEmpty then SchemeRes.noScheme else getSchemeAux (c :: seen) rest)
    else if c = ':' then
      (if seen.isEmpty then SchemeRes.missingScheme else SchemeRes.schemeFound seen.reverse rest)
    else SchemeRes.noScheme

/-- Lowercase a string character by character; models `strings.ToLower` for the
ASCII scheme characters. -/
def strToLower (s : String) : String :=
  String.mk (s.toList.map Char.toLower)

/-- Double-slash test. -/
def startsWith2Slash : List Char → Bool
  | '/' :: '/' :: _ => true
  | _ => false

/-- Triple-slash test. -/
def startsWith3Slash : List Char → Bool
  | '/' :: '/' :: '/' :: _ => true
  | _ => false

/-- Splitting of the part after the scheme, following `net/url` parse: a
non-slash remainder with a scheme is opaque; a double-slash remainder (for a
scheme-less string, only when not a triple slash) carries an authority up to the
next slash; everything else is the path. -/
def parseAfterScheme (scheme : String) (rest : List Char) : GoURL :=
  if scheme ≠ "" ∧ startsWithSlash rest = false then
    { Scheme := scheme, OpaquePart := String.mk rest, Host := "", Path := "" }
  else if startsWith2Slash rest ∧ (scheme ≠ "" ∨ startsWith3Slash rest = false) then
    let tail := rest.drop 2
    { Scheme := scheme, OpaquePart := ""
    , Host := String.mk (tail.takeWhile (fun c => c ≠ '/'))
    , Path := String.mk (tail.dropWhile (fun c => c ≠ '/')) }
  else
    { Scheme := scheme, OpaquePart := "", Host := "", Path := String.mk rest }

/-- Model of `net/url.Parse` restricted as described in the file header. -/
def urlParse (rawURL : String) : Except SmErr GoURL :=
  match getSchemeAux [] rawURL.toList with
  | SchemeRes.missingScheme => Except.error (SmErr.missingProtocolScheme rawURL)
  | SchemeRes.noScheme => Except.ok (parseAfterScheme "" rawURL.toList)
  | SchemeRes.schemeFound sch rest =>
      Except.ok (parseAfterScheme (strToLower (String.mk sch)) rest)

/-- Go `url.URL.IsAbs`: the URL carries a scheme. -/
def GoURL.IsAbs (u : GoURL) : Bool :=
  u.Scheme ≠ ""

/-- Model of `net/url.URL.String` for the components we carry: scheme colon,
then either the opaque part or the authority (double slash written when a
scheme or host is present and there is a host or a path) followed by the path,
with a separating slash inserted between a host and a relative path. -/
def GoURL.urlString (u : GoURL) : String :=
  (if u.Scheme ≠ "" then u.Scheme ++ ":" else "") ++
  (if u.OpaquePart ≠ "" then u.OpaquePart
   else
     (if (u.Scheme ≠ "" ∨ u.Host ≠ "") ∧ (u.Host ≠ "" ∨ u.Path ≠ "") then "//" ++ u.Host else "")
     ++ (if u.Path ≠ "" ∧ startsWithSlash u.Path.toList = false ∧ u.Host ≠ "" then "/" else "")
     ++ u.Path)

/-- Absolute-URL test used by `absSource` (consumer.go line 70): the string
parses as a URL and that URL is absolute; a parse error counts as not absolute. -/
def isAbsURL (s : String) : Bool :=
  match urlParse s with
  | Except.ok u => u.IsAbs
  | Except.error _ => false

/-! Mapping stream decoder.  The decoding function `parseMappings` called from
consumer.go line 53 lives in a repository file that is not among the sources, so
it is modelled from the spec (section 4.3). -/

/-- Modelled from the spec: value of one character of the base-64 alphabet
`A-Za-z0-9+/`, or `none` for a character outside the alphabet. -/
def base64Value (c : Char) : Option Nat :=
  if 'A' ≤ c ∧ c ≤ 'Z' then some (c.toNat - 'A'.toNat)
  else if 'a' ≤ c ∧ c ≤ 'z' then some (c.toNat - 'a'.toNat + 26)
  else if '0' ≤ c ∧ c ≤ '9' then some (c.toNat - '0'.toNat + 52)
  else if c = '+' then some 62
  else if c = '/' then some 63
  else none

/-- Modelled from the spec: zig-zag decoding of an accumulated magnitude, the
low bit being the sign. -/
def zigzag (n : Nat) : Int :=
  if n % 2 = 1 then -(((n / 2 : Nat) : Int)) else ((n / 2 : Nat) : Int)

/-- Modelled from the spec: decode one variable-length integer; each character
contributes five value bits (little-endian) and bit five is the continuation
bit.  Fails on an alphabet violation or when the input ends with the
continuation bit set (truncated integer). -/
def vlqDecode : List Char → Nat → Nat → Option (Int × List Char)
  | [], _, _ => none
  | c :: rest, shift, acc =>
    match base64Value c with
    | none => none
    | some v =>
      let acc2 := acc + (v % 32) * 2 ^ shift
      if 32 ≤ v then vlqDecode rest (shift + 5) acc2
      else some (zigzag acc2, rest)

/-- Modelled from the spec: decode a whole entry into its field values.  The
fuel argument bounds the recursion; it is instantiated with the character count,
which suffices because every integer consumes at least one character. -/
def vlqDecodeAll : Nat → List Char → Option (List Int)
  | _, [] => some []
  | 0, _ :: _ => none
  | fuel + 1, cs =>
    match vlqDecode cs 0 0 with
    | none => none
    | some (v, rest) =>
      match vlqDecodeAll fuel rest with
      | none => none
      | some vs => some (v :: vs)

/-- Modelled from the spec: running decoder state, one accumulator per
delta-encoded field (spec section 4.3); the generated column resets per row,
the other four accumulate across the whole stream. -/
structure decState where
  genCol : Int
  srcIdx : Int
  srcLine : Int
  srcCol : Int
  nameIdx : Int
deriving DecidableEq, Repr, Inhabited

/-- Modelled from the spec: turn the field values of one entry into a record,
advancing the state.  An entry holds one, four or five fields; any other count
(in particular two or three) is the invalid-field-count error. -/
def decodeSegment (st : decState) (genLine : Int) : List Int → Option (decState × mapping)
  | [d1] =>
    let c := st.genCol + d1
    some ({ st with genCol := c }, ⟨genLine, c, -1, 0, 0, -1⟩)
  | [d1, d2, d3, d4] =>
    let c := st.genCol + d1
    let si := st.srcIdx + d2
    let sl := st.srcLine + d3
    let sc := st.srcCol + d4
    some ({ st with genCol := c, srcIdx := si, srcLine := sl, srcCol := sc },
          ⟨genLine, c, si, sl, sc, -1⟩)
  | [d1, d2, d3, d4, d5] =>
    let c := st.genCol + d1
    let si := st.srcIdx + d2
    let sl := st.srcLine + d3
    let sc := st.srcCol + d4
    let ni := st.nameIdx + d5
    some ({ genCol := c, srcIdx := si, srcLine := sl, srcCol := sc, nameIdx := ni },
          ⟨genLine, c, si, sl, sc, ni⟩)
  | _ => none

/-- Modelled from the spec: decode the comma-separated entries of one row. -/
def decodeEntries (st : decState) (genLine : Int) : List (List Char) → Option (decState × List mapping)
  | [] => some (st, [])
  | e :: rest =>
    match vlqDecodeAll e.length e with
    | none => none
    | some fields =>
      match decodeSegment st genLine fields with
      | none => none
      | some (st2, r) =>
        match decodeEntries st2 genLine rest with
        | none => none
        | some (st3, rs) => some (st3, r :: rs)

/-- Modelled from the spec: decode the semicolon-separated rows, resetting the
generated-column accumulator at each row; an empty row contributes no entries. -/
def decodeGroups (st : decState) (genLine : Int) : List (List Char) → Option (List mapping)
  | [] => some []
  | g :: rest =>
    let entries := if g.isEmpty then [] else splitOnChar ',' g
    match decodeEntries { st with genCol := 0 } genLine entries with
    | none => none
    | some (st2, rs) =>
      match decodeGroups st2 (genLine + 1) rest with
      | none => none
      | some more => some (rs ++ more)

/-- Stable insertion of a record in front of the first strictly greater record. -/
def insertMapping (r : mapping) : List mapping → List mapping
  | [] => [r]
  | x :: xs =>
    if posLt x.genLine x.genColumn r.genLine r.genColumn then x :: insertMapping r xs
    else r :: x :: xs

/-- Stable insertion sort establishing the sortedness invariant that the spec
(section 3) demands of the decoded record sequence. -/
def sortMappings : List mapping → List mapping
  | [] => []
  | r :: rest => insertMapping r (sortMappings rest)

/-- Modelled from the spec: full decoder of the delta-encoded mapping string,
spec section 4.3, with the explicit stabilising sort the spec calls for. -/
def parseMappings (s : String) : Except SmErr (List mapping) :=
  match decodeGroups ⟨0, 0, 0, 0, 0⟩ 0 (splitOnChar ';' s.toList) with
  | none => Except.error SmErr.malformedMappings
  | some rs => Except.ok (sortMappings rs)

/-! The `sourceMap` structure and its parse (consumer.go lines 17-85). -/

/-- The `sourceMap` struct of consumer.go lines 17-27; `sourceRootURL` and
`mappings` are the derived fields filled in by `parse`, defaulted before it. -/
structure sourceMap where
  Version : Int
  File : String
  SourceRoot : String
  Sources : List String
  Names : List NameEntry
  Mappings : String
  sourceRootURL : Option GoURL := none
  mappings : List mapping := []
deriving DecidableEq, Repr, Inhabited

/-- Lines of consumer.go, namely lines 196-204: only version 3, or the zero value left by an
absent field, is accepted. -/
def checkVersion (version : Int) : Except SmErr Unit :=
  if version = 3 ∨ version = 0 then Except.ok ()
  else Except.error (SmErr.unsupportedVersion version)

/-- Root resolution of consumer.go lines 34-51: a non-empty `sourceRoot` is
parsed and kept only when absolute; only when `sourceRoot` is empty is a
non-empty map origin parsed, and kept with its path replaced by its directory
when absolute; a url parse failure aborts. -/
def resolveRootURL (sourceRoot mapURL : String) : Except SmErr (Option GoURL) :=
  if sourceRoot ≠ "" then
    match urlParse sourceRoot with
    | Except.error e => Except.error e
    | Except.ok u => Except.ok (if u.IsAbs then some u else none)
  else if mapURL ≠ "" then
    match urlParse mapURL with
    | Except.error e => Except.error e
    | Except.ok u =>
        Except.ok (if u.IsAbs then some { u with Path := pathDir u.Path } else none)
  else Except.ok none

/-- Lines of consumer.go, namely lines 29-63, `sourceMap.parse`: check the version, resolve the
root url, decode the mapping stream, and clear the raw mapping string. -/
def sourceMap.parse (m : sourceMap) (mapURL : String) : Except SmErr sourceMap :=
  match checkVersion m.Version with
  | Except.error e => Except.error e
  | Except.ok _ =>
    match resolveRootURL m.SourceRoot mapURL with
    | Except.error e => Except.error e
    | Except.ok rootURL =>
      match parseMappings m.Mappings with
      | Except.error e => Except.error e
      | Except.ok ms =>
        Except.ok { m with sourceRootURL := rootURL, mappings := ms, Mappings := "" }

/-- Lines of consumer.go, namely lines 65-85, `sourceMap.absSource`: an absolute path or
absolute URL passes through; otherwise the name is joined onto the resolved
root url (path-join on its path, rendered back to a string), or onto the raw
`sourceRoot` by plain path join, or passes through when neither exists.
List indexing in Go panics out of range; here `getD` totalises it and the
theorems that touch indexing assume in-range indices. -/
def sourceMap.absSource (m : sourceMap) (source : String) : String :=
  if pathIsAbs source then source
  else if isAbsURL source then source
  else
    match m.sourceRootURL with
    | some rootURL => ({ rootURL with Path := pathJoin rootURL.Path source } : GoURL).urlString
    | none =>
      if m.SourceRoot ≠ "" then pathJoin m.SourceRoot source
      else source

/-! Sections, Consumer, Parse (consumer.go lines 87-129). -/

/-- The nested offset struct of `section` (consumer.go lines 88-91). -/
structure SectionOffset where
  Line : Int
  Column : Int
deriving DecidableEq, Repr, Inhabited

/-- A `section` as decoded from JSON: the `Map` pointer may be nil when the
document element lacks its embedded map; `none` models nil. -/
structure SectionIn where
  Offset : SectionOffset
  Map : Option sourceMap
deriving DecidableEq, Repr, Inhabited

/-- A `section` held by a fully parsed Consumer: `Parse` only succeeds once
every section map pointer is non-nil and parsed, so the map is carried
directly. -/
structure Section where
  Offset : SectionOffset
  Map : sourceMap
deriving DecidableEq, Repr, Inhabited

/-- The public `Consumer` (consumer.go lines 95-98). -/
structure Consumer where
  file : String
  sections : List Section
deriving DecidableEq, Repr, Inhabited

/-- The top-level document type `v3` (consumer.go lines 12-15): the embedded
`sourceMap` plus the optional section list. -/
structure v3 where
  smap : sourceMap
  Sections : List SectionIn
deriving DecidableEq, Repr, Inhabited

/-- Outcome of running construction: a consumer, an error, or the runtime
nil-pointer panic Go raises when `parse` is invoked on a nil `*sourceMap`
(reading `m.Version` dereferences nil). -/
inductive PResult (α : Type) where
  | ok (a : α)
  | err (e : SmErr)
  | nilPanic
deriving DecidableEq, Repr

/-- The section loop of `Parse` (consumer.go lines 117-122): parse every
section map in order, stopping at the first failure; a nil map pointer makes
the Go code panic inside `sourceMap.parse` when it reads `m.Version`. -/
def parseSections (mapURL : String) : List SectionIn → PResult (List Section)
  | [] => PResult.ok []
  | s :: rest =>
    match s.Map with
    | none => PResult.nilPanic
    | some m =>
      match m.parse mapURL with
      | Except.error e => PResult.err e
      | Except.ok m2 =>
        match parseSections mapURL rest with
        | PResult.ok ss => PResult.ok (⟨s.Offset, m2⟩ :: ss)
        | PResult.err e => PResult.err e
        | PResult.nilPanic => PResult.nilPanic

/-- Lines of consumer.go, namely lines 100-129, `Parse` after JSON decoding: check the top-level
version, synthesise the implicit zero-offset section wrapping the top-level map
when the section list is empty, parse every section, reverse the list (so the
highest offset comes first) and build the Consumer. -/
def Parse (mapURL : String) (doc : v3) : PResult Consumer :=
  match checkVersion doc.smap.Version with
  | Except.error e => PResult.err e
  | Except.ok _ =>
    let sections := if doc.Sections.isEmpty then [⟨⟨0, 0⟩, some doc.smap⟩] else doc.Sections
    match parseSections mapURL sections with
    | PResult.err e => PResult.err e
    | PResult.nilPanic => PResult.nilPanic
    | PResult.ok ss => PResult.ok ⟨doc.smap.File, ss.reverse⟩

/-- Lines of consumer.go, namely lines 131-133. -/
def Consumer.File (c : Consumer) : String :=
  c.file

/-! Query path (consumer.go lines 135-194). -/

/-- Result quintuple of `Consumer.Source` and `Consumer.source`. -/
structure SourceResult where
  source : String
  name : String
  line : Int
  column : Int
  ok : Bool
deriving DecidableEq, Repr, Inhabited

/-- The zero-value result Go returns on the not-found paths. -/
def SourceResult.empty : SourceResult :=
  { source := "", name := "", line := 0, column := 0, ok := false }

/-- Go `sort.Search` loop body with explicit fuel; the fuel is instantiated
with the interval width, which suffices because the width strictly shrinks
every iteration. -/
def sortSearchAux (f : Nat → Bool) : Nat → Nat → Nat → Nat
  | 0, i, _ => i
  | fuel + 1, i, j =>
    if i < j then
      (if f ((i + j) / 2) then sortSearchAux f fuel i ((i + j) / 2)
       else sortSearchAux f fuel ((i + j) / 2 + 1) j)
    else i

/-- Go `sort.Search n f`: binary search for the smallest index in `[0, n)`
satisfying the (monotone) predicate, returning `n` when none does. -/
def sortSearch (n : Nat) (f : Nat → Bool) : Nat :=
  sortSearchAux f n 0 n

/-- The search predicate closure of consumer.go lines 153-159. -/
def goPred (ms : List mapping) (genLine genColumn : Int) (k : Nat) : Bool :=
  let mk := ms.getD k default
  if mk.genLine = genLine then decide (genColumn ≤ mk.genColumn)
  else decide (genLine ≤ mk.genLine)

/-- Record selection of consumer.go lines 153-174: binary search for the first
record at or after the query; `none` when the search exhausts the records; on a
record past the query on either coordinate, fall back to the preceding record
or `none` when there is none. -/
def sourceMap.sourceIdx (m : sourceMap) (genLine genColumn : Int) : Option Nat :=
  let i := sortSearch m.mappings.length (goPred m.mappings genLine genColumn)
  if i = m.mappings.length then none
  else
    let mtch := m.mappings.getD i default
    if mtch.genLine > genLine ∨ mtch.genColumn > genColumn then
      (if i = 0 then none else some (i - 1))
    else some i

/-- Rendering of a selected record (consumer.go lines 176-193): resolve the
source through `absSource` when the source index is present, render the name
entry when the name index is present, copy the original line and column. -/
def renderResult (m : sourceMap) (r : mapping) : SourceResult :=
  { source := if 0 ≤ r.sourcesInd then m.absSource (m.Sources.getD r.sourcesInd.toNat "") else ""
  , name := if 0 ≤ r.namesInd then renderName (m.Names.getD r.namesInd.toNat (NameEntry.str "")) else ""
  , line := r.sourceLine
  , column := r.sourceColumn
  , ok := true }

/-- Lines of consumer.go, namely lines 150-194, `Consumer.source`: select a record and render
it, or return the zero result.  The receiver is unused in the Go code as well. -/
def Consumer.source (_ : Consumer) (m : sourceMap) (genLine genColumn : Int) : SourceResult :=
  match m.sourceIdx genLine genColumn with
  | none => SourceResult.empty
  | some k => renderResult m (m.mappings.getD k default)

/-- The section-selection predicate of consumer.go lines 140-141. -/
def sectionMatches (s : Section) (genLine genColumn : Int) : Prop :=
  s.Offset.Line < genLine ∨ (s.Offset.Line + 1 = genLine ∧ s.Offset.Column ≤ genColumn)

instance (s : Section) (genLine genColumn : Int) : Decidable (sectionMatches s genLine genColumn) :=
  inferInstanceAs (Decidable (s.Offset.Line < genLine ∨
    (s.Offset.Line + 1 = genLine ∧ s.Offset.Column ≤ genColumn)))

/-- The section loop of `Consumer.Source` (consumer.go lines 138-146): the
first matching section receives the query translated by its offset. -/
def sourceScan (c : Consumer) (genLine genColumn : Int) : List Section → SourceResult
  | [] => SourceResult.empty
  | s :: rest =>
    if sectionMatches s genLine genColumn then
      Consumer.source c s.Map (genLine - s.Offset.Line) (genColumn - s.Offset.Column)
    else sourceScan c genLine genColumn rest

/-- Lines of consumer.go, namely lines 135-148, the public query entry point. -/
def Consumer.Source (c : Consumer) (genLine genColumn : Int) : SourceResult :=
  sourceScan c genLine genColumn c.sections

/-- Written after the words of the spec (section 4.4): the index of the first
record whose generated position is not lexicographically less than the query,
or the record count when no such record exists. -/
def lowerBoundIdx (ms : List mapping) (genLine genColumn : Int) : Nat :=
  ms.findIdx (fun r => decide (posLe genLine genColumn r.genLine r.genColumn))

/-! Sample data used by the claim witnesses and counterexamples below. -/

/-- Sample sub-map used by the C1 witness. -/
def c1map : sourceMap :=
  { Version := 3, File := "", SourceRoot := "", Sources := ["a.js"], Names := []
  , Mappings := "", sourceRootURL := none, mappings := [⟨0, 0, 0, 0, 0, -1⟩] }

/-- Sample high-offset section used by the C1 witness. -/
def c1sec0 : Section := ⟨⟨5, 10⟩, c1map⟩

/-- Sample zero-offset section used by the C1 witness. -/
def c1sec1 : Section := ⟨⟨0, 0⟩, c1map⟩

/-- Sample consumer used by the C1 witness. -/
def c1consumer : Consumer := ⟨"bundle.js", [c1sec0, c1sec1]⟩

/-- Document used by the C10 witness: a flat map, no sections. -/
def c10doc : v3 :=
  { smap := { Version := 3, File := "out.js", SourceRoot := "", Sources := ["a.js"]
            , Names := [], Mappings := "AAAA" }
  , Sections := [] }

/-- The parsed sub-map of `c10doc`. -/
def c10map : sourceMap :=
  { Version := 3, File := "out.js", SourceRoot := "", Sources := ["a.js"]
  , Names := [], Mappings := "", sourceRootURL := none, mappings := [⟨0, 0, 0, 0, 0, -1⟩] }

/-- The consumer that `Parse` produces from `c10doc`. -/
def c10consumer : Consumer :=
  ⟨"out.js", [⟨⟨0, 0⟩, c10map⟩]⟩

/-- Sample sub-map used by the C2 witness: three sorted records. -/
def c2map : sourceMap :=
  { Version := 3, File := "", SourceRoot := "", Sources := ["a.js"]
  , Names := [NameEntry.str "x"], Mappings := "", sourceRootURL := none
  , mappings := [⟨1, 1, 0, 10, 2, -1⟩, ⟨1, 5, 0, 20, 3, 0⟩, ⟨2, 0, -1, 0, 0, -1⟩] }

/-- Dummy consumer receiver used by the C2 witness. -/
def c2consumer : Consumer := ⟨"", []⟩

/-- Sub-map with two records sharing one generated position (legal under the
non-decreasing sortedness invariant) but different original lines. -/
def c3map : sourceMap :=
  { Version := 3, File := "", SourceRoot := "", Sources := ["a.js"]
  , Names := [], Mappings := "", sourceRootURL := none
  , mappings := [⟨0, 0, 0, 10, 0, -1⟩, ⟨0, 0, 0, 20, 0, -1⟩] }

/-- The second record of `c3map`, sharing its generated position with the first. -/
def c3rec : mapping := ⟨0, 0, 0, 20, 0, -1⟩

/-- Dummy consumer receiver used by the C3 counterexample. -/
def c3consumer : Consumer := ⟨"", []⟩

/-- Strictly sorted sub-map used by the C3 witness. -/
def c3amap : sourceMap :=
  { Version := 3, File := "", SourceRoot := "", Sources := ["a.js", "b.js"]
  , Names := [NameEntry.str "foo"], Mappings := "", sourceRootURL := none
  , mappings := [⟨0, 0, 0, 1, 1, -1⟩, ⟨1, 4, 1, 7, 2, 0⟩] }

/-- The second record of `c3amap`. -/
def c3arec : mapping := ⟨1, 4, 1, 7, 2, 0⟩

/-- Dummy consumer receiver used by the C3 witness. -/
def c3aconsumer : Consumer := ⟨"", []⟩

/-- Sample sub-map used by the C4 witness (same records as the C2 sample). -/
def c4map : sourceMap :=
  { Version := 3, File := "", SourceRoot := "", Sources := ["a.js"]
  , Names := [], Mappings := "", sourceRootURL := none
  , mappings := [⟨1, 1, 0, 10, 2, -1⟩, ⟨1, 5, 0, 20, 3, 0⟩, ⟨2, 0, -1, 0, 0, -1⟩] }

/-- Version-2 document used by the C5 witness. -/
def c5doc2 : v3 :=
  { smap := { Version := 2, File := "", SourceRoot := "", Sources := [], Names := []
            , Mappings := "" }
  , Sections := [] }

/-- Indexed document whose only section lacks its embedded map. -/
def c7doc : v3 :=
  { smap := { Version := 3, File := "", SourceRoot := "", Sources := [], Names := []
            , Mappings := "" }
  , Sections := [⟨⟨1, 0⟩, none⟩] }

/-- Sub-map with a non-empty relative `sourceRoot`, used against C6. -/
def c6map : sourceMap :=
  { Version := 3, File := "", SourceRoot := "foo", Sources := [], Names := []
  , Mappings := "" }

/-- Sub-map with an empty `sourceRoot`, used by the C6 witness. -/
def c6bmap : sourceMap :=
  { Version := 3, File := "", SourceRoot := "", Sources := [], Names := []
  , Mappings := "" }

/-- The result of parsing `c6bmap` against the sample origin. -/
def c6bparsed : sourceMap :=
  { Version := 3, File := "", SourceRoot := "", Sources := [], Names := []
  , Mappings := "", sourceRootURL := some ⟨"http", "", "example.com", "/a"⟩
  , mappings := [] }

/-- Sub-map with a relative raw `sourceRoot` and no resolved root, used by the
C8 witness. -/
def c8map : sourceMap :=
  { Version := 3, File := "", SourceRoot := "lib", Sources := ["x.js"], Names := []
  , Mappings := "" }

/-- Sub-map with a numeric and a string `names` entry, used by the C9 witness. -/
def c9map : sourceMap :=
  { Version := 3, File := "", SourceRoot := "", Sources := [], Names := [NameEntry.num 42, NameEntry.str "alpha"]
  , Mappings := "", sourceRootURL := none
  , mappings := [⟨0, 0, -1, 0, 0, 0⟩, ⟨0, 5, -1, 0, 0, 1⟩] }

/-- Dummy consumer receiver used by the C9 witness. -/
def c9consumer : Consumer := ⟨"", []⟩

/-! Helper lemmas. -/

theorem posLe_rfl (l c : Int) : posLe l c l c := by
  unfold posLe; omega

theorem posLe_trans {a b c d e f : Int} (h1 : posLe a b c d) (h2 : posLe c d e f) :
    posLe a b e f := by
  unfold posLe at *; omega

theorem findIdxLe {α : Type} (p : α → Bool) (l : List α) : l.findIdx p ≤ l.length := by
  induction l with
  | nil => simp [List.findIdx_nil]
  | cons a l ih =>
    rw [List.findIdx_cons]
    cases hp : p a
    · simp only [cond_false, List.length_cons]
      omega
    · simp only [cond_true]
      omega

theorem findIdxBefore {α : Type} [Inhabited α] (p : α → Bool) (l : List α) (k : Nat)
    (h : k < l.findIdx p) : p (l.getD k default) = false := by
  induction l generalizing k with
  | nil => rw [List.findIdx_nil] at h; omega
  | cons a l ih =>
    rw [List.findIdx_cons] at h
    cases hp : p a
    · simp only [hp, cond_false] at h
      cases k with
      | zero => rw [List.getD_cons_zero]; exact hp
      | succ k =>
        rw [List.getD_cons_succ]
        exact ih k (by omega)
    · simp only [hp, cond_true] at h
      omega

theorem findIdxHit {α : Type} [Inhabited α] (p : α → Bool) (l : List α)
    (h : l.findIdx p < l.length) : p (l.getD (l.findIdx p) default) = true := by
  induction l with
  | nil =>
    rw [List.findIdx_nil, List.length_nil] at h
    omega
  | cons a l ih =>
    rw [List.findIdx_cons] at h ⊢
    cases hp : p a
    · simp only [hp, cond_false] at h ⊢
      rw [List.getD_cons_succ]
      refine ih ?_
      rw [List.length_cons] at h
      omega
    · simp only [hp, cond_true]
      rw [List.getD_cons_zero]
      exact hp

theorem findIdxMin {α : Type} [Inhabited α] (p : α → Bool) (l : List α) (k : Nat)
    (hk : k < l.length) (hp : p (l.getD k default) = true) : l.findIdx p ≤ k := by
  induction l generalizing k with
  | nil =>
    rw [List.length_nil] at hk
    omega
  | cons a l ih =>
    rw [List.findIdx_cons]
    cases hpa : p a
    · simp only [cond_false]
      cases k with
      | zero =>
        rw [List.getD_cons_zero] at hp
        rw [hp] at hpa
        cases hpa
      | succ k =>
        rw [List.getD_cons_succ] at hp
        have := ih k (by simpa using Nat.lt_of_succ_lt_succ hk) hp
        omega
    · simp

theorem sortSearchAuxSpec (f : Nat → Bool) (n : Nat)
    (mono : ∀ a b : Nat, a ≤ b → b < n → f a = true → f b = true) :
    ∀ (fuel i j : Nat), j - i ≤ fuel → i ≤ j → j ≤ n →
      (∀ k, k < i → f k = false) →
      (∀ k, j ≤ k → k < n → f k = true) →
      (∀ k, k < sortSearchAux f fuel i j → f k = false) ∧
      (∀ k, sortSearchAux f fuel i j ≤ k → k < n → f k = true) ∧
      i ≤ sortSearchAux f fuel i j ∧ sortSearchAux f fuel i j ≤ j := by
  intro fuel
  induction fuel with
  | zero =>
    intro i j hfuel hij hjn hlow hhigh
    have hji : i = j := by omega
    simp only [sortSearchAux]
    refine ⟨hlow, ?_, Nat.le_refl i, hij⟩
    intro k hk hkn
    exact hhigh k (by omega) hkn
  | succ fuel ih =>
    intro i j hfuel hij hjn hlow hhigh
    simp only [sortSearchAux]
    by_cases hlt : i < j
    · rw [if_pos hlt]
      by_cases fh : f ((i + j) / 2) = true
      · rw [if_pos fh]
        have := ih i ((i + j) / 2) (by omega) (by omega) (by omega) hlow
          (fun k hk hkn => mono ((i + j) / 2) k hk hkn fh)
        exact ⟨this.1, this.2.1, this.2.2.1, by omega⟩
      · rw [if_neg fh]
        have hlow2 : ∀ k, k < (i + j) / 2 + 1 → f k = false := by
          intro k hk
          by_cases hki : k < i
          · exact hlow k hki
          · cases hfk : f k
            · rfl
            · exact absurd (mono k ((i + j) / 2) (by omega) (by omega) hfk) fh
        have := ih ((i + j) / 2 + 1) j (by omega) (by omega) hjn hlow2 hhigh
        exact ⟨this.1, this.2.1, by omega, this.2.2.2⟩
    · rw [if_neg hlt]
      have hji : i = j := by omega
      refine ⟨hlow, ?_, Nat.le_refl i, hij⟩
      intro k hk hkn
      exact hhigh k (by omega) hkn

theorem sortSearchSpec (f : Nat → Bool) (n : Nat)
    (mono : ∀ a b : Nat, a ≤ b → b < n → f a = true → f b = true) :
    (∀ k, k < sortSearch n f → f k = false) ∧
    (∀ k, sortSearch n f ≤ k → k < n → f k = true) ∧ sortSearch n f ≤ n := by
  unfold sortSearch
  have := sortSearchAuxSpec f n mono n 0 n (by omega) (by omega) (Nat.le_refl n)
    (fun k hk => absurd hk (Nat.not_lt_zero k))
    (fun k hk hkn => absurd hkn (by omega))
  exact ⟨this.1, this.2.1, this.2.2.2⟩

theorem goPred_eq (ms : List mapping) (gl gc : Int) (k : Nat) :
    goPred ms gl gc k =
      decide (posLe gl gc (ms.getD k default).genLine (ms.getD k default).genColumn) := by
  unfold goPred posLe
  by_cases h : (ms.getD k default).genLine = gl
  · rw [if_pos h, decide_eq_decide]
    omega
  · rw [if_neg h, decide_eq_decide]
    omega

theorem sortedGetDMono (ms : List mapping) (hs : SortedMappings ms) (a b : Nat)
    (hab : a ≤ b) (hb : b < ms.length) :
    posLe (ms.getD a default).genLine (ms.getD a default).genColumn
      (ms.getD b default).genLine (ms.getD b default).genColumn := by
  rcases Nat.eq_or_lt_of_le hab with heq | hltab
  · subst heq; exact posLe_rfl _ _
  · have ha : a < ms.length := by omega
    rw [List.getD_eq_getElem _ _ ha, List.getD_eq_getElem _ _ hb]
    exact (List.pairwise_iff_getElem.mp hs) a b ha hb hltab

theorem goPredMono (ms : List mapping) (gl gc : Int) (hs : SortedMappings ms) :
    ∀ a b : Nat, a ≤ b → b < ms.length → goPred ms gl gc a = true → goPred ms gl gc b = true := by
  intro a b hab hb hga
  rw [goPred_eq] at hga ⊢
  rw [decide_eq_true_eq] at hga
  rw [decide_eq_true_eq]
  have hmono := sortedGetDMono ms hs a b hab hb
  exact posLe_trans hga hmono

theorem sortSearchEqLowerBound (ms : List mapping) (gl gc : Int) (hs : SortedMappings ms) :
    sortSearch ms.length (goPred ms gl gc) = lowerBoundIdx ms gl gc := by
  obtain ⟨hbefore, hafter, hle⟩ := sortSearchSpec (goPred ms gl gc) ms.length (goPredMono ms gl gc hs)
  have hbridge : ∀ k : Nat,
      (fun r : mapping => decide (posLe gl gc r.genLine r.genColumn)) (ms.getD k default) =
        goPred ms gl gc k := by
    intro k
    rw [goPred_eq]
  unfold lowerBoundIdx
  rcases Nat.lt_trichotomy (sortSearch ms.length (goPred ms gl gc))
      (ms.findIdx fun r => decide (posLe gl gc r.genLine r.genColumn)) with h | h | h
  · exfalso
    have hfle := findIdxLe (fun r : mapping => decide (posLe gl gc r.genLine r.genColumn)) ms
    have hslen : sortSearch ms.length (goPred ms gl gc) < ms.length := by omega
    have htrue := hafter _ (Nat.le_refl _) hslen
    have hfalse := findIdxBefore (fun r : mapping => decide (posLe gl gc r.genLine r.genColumn)) ms _ h
    rw [hbridge] at hfalse
    rw [htrue] at hfalse
    cases hfalse
  · exact h
  · exfalso
    have hflen : (ms.findIdx fun r => decide (posLe gl gc r.genLine r.genColumn)) < ms.length := by
      omega
    have htrue := findIdxHit (fun r : mapping => decide (posLe gl gc r.genLine r.genColumn)) ms hflen
    rw [hbridge] at htrue
    have hfalse := hbefore _ h
    rw [htrue] at hfalse
    cases hfalse

theorem posLt_of_not_posLe {l1 c1 l2 c2 : Int} (h : ¬ posLe l1 c1 l2 c2) :
    posLt l2 c2 l1 c1 := by
  unfold posLe at h
  unfold posLt
  omega

theorem not_posLe_of_posLt {l1 c1 l2 c2 : Int} (h : posLt l1 c1 l2 c2) :
    ¬ posLe l2 c2 l1 c1 := by
  unfold posLt at h
  unfold posLe
  omega

theorem posEq_of_posLe_posLe {l1 c1 l2 c2 : Int} (h1 : posLe l1 c1 l2 c2)
    (h2 : posLe l2 c2 l1 c1) : l1 = l2 ∧ c1 = c2 := by
  unfold posLe at h1 h2
  omega

/-- Characterization of `sourceIdx` on a sorted record list: a selected index is
in range, the selected record is at or before the query, and every record
strictly before the query sits at or before the selected index. -/
theorem sourceIdxSpec (m : sourceMap) (gl gc : Int) (k : Nat)
    (hs : SortedMappings m.mappings) (h : m.sourceIdx gl gc = some k) :
    k < m.mappings.length ∧
    posLe (m.mappings.getD k default).genLine (m.mappings.getD k default).genColumn gl gc ∧
    (∀ j, j < m.mappings.length →
      posLt (m.mappings.getD j default).genLine (m.mappings.getD j default).genColumn gl gc →
      j ≤ k) := by
  obtain ⟨hbefore, hafter, hle⟩ :=
    sortSearchSpec (goPred m.mappings gl gc) m.mappings.length (goPredMono m.mappings gl gc hs)
  simp only [sourceMap.sourceIdx] at h
  set i := sortSearch m.mappings.length (goPred m.mappings gl gc) with hidef
  have hnotpred : ∀ j, goPred m.mappings gl gc j = false → j < m.mappings.length → j < i := by
    intro j hj hjlen
    by_contra hcon
    have := hafter j (by omega) hjlen
    rw [this] at hj
    cases hj
  have hjlow : ∀ j, j < m.mappings.length →
      posLt (m.mappings.getD j default).genLine (m.mappings.getD j default).genColumn gl gc →
      j < i := by
    intro j hjlen hjlt
    refine hnotpred j ?_ hjlen
    rw [goPred_eq]
    rw [decide_eq_false_iff_not]
    exact not_posLe_of_posLt hjlt
  by_cases hilen : i = m.mappings.length
  · rw [if_pos hilen] at h
    cases h
  · rw [if_neg hilen] at h
    have hiltlen : i < m.mappings.length := by omega
    by_cases hfz : (m.mappings.getD i default).genLine > gl ∨ (m.mappings.getD i default).genColumn > gc
    · rw [if_pos hfz] at h
      by_cases hi0 : i = 0
      · rw [if_pos hi0] at h
        cases h
      · rw [if_neg hi0] at h
        have hk : k = i - 1 := by
          have := Option.some.inj h
          omega
        subst hk
        refine ⟨by omega, ?_, ?_⟩
        · have hfail := hbefore (i - 1) (by omega)
          rw [goPred_eq, decide_eq_false_iff_not] at hfail
          have := posLt_of_not_posLe hfail
          unfold posLt at this
          unfold posLe
          omega
        · intro j hjlen hjlt
          have := hjlow j hjlen hjlt
          omega
    · rw [if_neg hfz] at h
      have hk : k = i := by
        have := Option.some.inj h
        omega
      subst hk
      refine ⟨hiltlen, ?_, ?_⟩
      · unfold posLe
        omega
      · intro j hjlen hjlt
        have := hjlow j hjlen hjlt
        omega

/-! Claim theorems. -/

/-- Claim C1: on every Consumer, `Source(genLine, genColumn)` scans the stored
section list in order and delegates to the first section satisfying the
boundary predicate, after subtracting the section offset line and column from
the query; when no section satisfies the predicate the result is not found. -/
theorem c1_section_scan (c : Consumer) (genLine genColumn : Int) :
    ((∀ s ∈ c.sections, ¬ sectionMatches s genLine genColumn) →
      (c.Source genLine genColumn).ok = false) ∧
    (∀ (pre : List Section) (s : Section) (post : List Section),
      c.sections = pre ++ s :: post →
      (∀ t ∈ pre, ¬ sectionMatches t genLine genColumn) →
      sectionMatches s genLine genColumn →
      c.Source genLine genColumn =
        Consumer.source c s.Map (genLine - s.Offset.Line) (genColumn - s.Offset.Column)) := by
  have aux1 : ∀ l : List Section, (∀ s ∈ l, ¬ sectionMatches s genLine genColumn) →
      sourceScan c genLine genColumn l = SourceResult.empty := by
    intro l
    induction l with
    | nil => intro _; rfl
    | cons s rest ih =>
      intro hall
      simp only [sourceScan]
      rw [if_neg (hall s (List.mem_cons_self s rest))]
      exact ih (fun t ht => hall t (List.mem_cons_of_mem s ht))
  have aux2 : ∀ (pre : List Section) (s : Section) (post : List Section),
      (∀ t ∈ pre, ¬ sectionMatches t genLine genColumn) →
      sectionMatches s genLine genColumn →
      sourceScan c genLine genColumn (pre ++ s :: post) =
        Consumer.source c s.Map (genLine - s.Offset.Line) (genColumn - s.Offset.Column) := by
    intro pre
    induction pre with
    | nil =>
      intro s post _ hmatch
      simp only [List.nil_append, sourceScan]
      rw [if_pos hmatch]
    | cons t rest ih =>
      intro s post hall hmatch
      simp only [List.cons_append, sourceScan]
      rw [if_neg (hall t (List.mem_cons_self t rest))]
      exact ih s post (fun u hu => hall u (List.mem_cons_of_mem t hu)) hmatch
  constructor
  · intro hall
    unfold Consumer.Source
    rw [aux1 c.sections hall]
    rfl
  · intro pre s post hsec hall hmatch
    unfold Consumer.Source
    rw [hsec]
    exact aux2 pre s post hall hmatch

/-- Witness for C1: on a concrete two-section consumer, a query skipping the
first (non-matching) section delegates to the second with the offset applied. -/
theorem c1_witness :
    Consumer.Source c1consumer 3 2 = Consumer.source c1consumer c1sec1.Map 3 2 := by
  have := (c1_section_scan c1consumer 3 2).2 [c1sec0] c1sec1 [] (by rfl)
    (by decide) (by decide)
  simpa using this

/-- Claim C10: a consumer built from a flat document carries the single
implicit section at offset `(0, 0)`, and a query on generated line zero never
matches the selection predicate (it would need `0 < 0` or `1 = 0`), so
`Source(0, genColumn)` is not found for every `genColumn`, whatever the decoded
records are. -/
theorem c10_flat_line_zero (doc : v3) (mapURL : String) (c : Consumer)
    (hflat : doc.Sections = []) (h : Parse mapURL doc = PResult.ok c) (genColumn : Int) :
    (c.Source 0 genColumn).ok = false := by
  unfold Parse at h
  cases hv : checkVersion doc.smap.Version with
  | error e => rw [hv] at h; cases h
  | ok u =>
    rw [hv] at h
    simp only [hflat, List.isEmpty_nil, if_true] at h
    simp only [parseSections] at h
    cases hp : doc.smap.parse mapURL with
    | error e => rw [hp] at h; cases h
    | ok m2 =>
      rw [hp] at h
      simp only [List.reverse_cons, List.reverse_nil, List.nil_append] at h
      have hc : c = ⟨doc.smap.File, [⟨⟨0, 0⟩, m2⟩]⟩ := by
        cases h
        rfl
      subst hc
      unfold Consumer.Source
      simp only [sourceScan]
      rw [if_neg ?_]
      · rfl
      · unfold sectionMatches
        simp only [SectionOffset.mk.injEq]
        omega

/-- Witness for C10: the concrete flat document parses successfully and a
line-zero query misses. -/
theorem c10_witness : (Consumer.Source c10consumer 0 7).ok = false :=
  c10_flat_line_zero c10doc "" c10consumer rfl (by decide) 7

/-- Claim C2: on a sorted record list, the lookup binary-searches for the first
record not lexicographically less than the query; when the search exhausts the
records the result is not found; when the found record is strictly greater than
the query on either field, the immediately preceding record is used, or the
result is not found when the found record is the first; an exact match is used
directly. -/
theorem c2_lookup (c : Consumer) (m : sourceMap) (gl gc : Int) (i : Nat)
    (hs : SortedMappings m.mappings) (hi : lowerBoundIdx m.mappings gl gc = i) :
    (i = m.mappings.length → Consumer.source c m gl gc = SourceResult.empty) ∧
    (i < m.mappings.length →
      (((m.mappings.getD i default).genLine = gl ∧ (m.mappings.getD i default).genColumn = gc) →
        Consumer.source c m gl gc = renderResult m (m.mappings.getD i default)) ∧
      (((m.mappings.getD i default).genLine > gl ∨ (m.mappings.getD i default).genColumn > gc) →
        (i = 0 → Consumer.source c m gl gc = SourceResult.empty) ∧
        (i ≠ 0 → Consumer.source c m gl gc = renderResult m (m.mappings.getD (i - 1) default)))) := by
  have hss : sortSearch m.mappings.length (goPred m.mappings gl gc) = i := by
    rw [sortSearchEqLowerBound m.mappings gl gc hs, hi]
  constructor
  · intro hlen
    have hsrc : m.sourceIdx gl gc = none := by
      simp only [sourceMap.sourceIdx]
      rw [hss, if_pos hlen]
    unfold Consumer.source
    rw [hsrc]
  · intro hlt
    constructor
    · rintro ⟨he1, he2⟩
      have hsrc : m.sourceIdx gl gc = some i := by
        simp only [sourceMap.sourceIdx]
        rw [hss, if_neg (by omega), if_neg (by omega)]
      unfold Consumer.source
      rw [hsrc]
    · intro hfz
      constructor
      · intro h0
        have hsrc : m.sourceIdx gl gc = none := by
          simp only [sourceMap.sourceIdx]
          rw [hss, if_neg (by omega), if_pos hfz, if_pos h0]
        unfold Consumer.source
        rw [hsrc]
      · intro h0
        have hsrc : m.sourceIdx gl gc = some (i - 1) := by
          simp only [sourceMap.sourceIdx]
          rw [hss, if_neg (by omega), if_pos hfz, if_neg h0]
        unfold Consumer.source
        rw [hsrc]

/-- Witness for C2: a query strictly between the first two records resolves to
the fuzzy predecessor record. -/
theorem c2_witness :
    Consumer.source c2consumer c2map 1 3 = renderResult c2map (c2map.mappings.getD 0 default) := by
  have h := ((c2_lookup c2consumer c2map 1 3 1 (by decide) (by decide)).2 (by decide)).2 (by decide)
  exact h.2 (by decide)

/-- Counterexample to C3 as stated: with sorted (non-decreasing) records, the
record `c3rec` is in the list, the lookup at its generated position succeeds,
but the returned original line is that of the first record at the position, not
of `c3rec`. -/
theorem c3_counterexample :
    SortedMappings c3map.mappings ∧ c3rec ∈ c3map.mappings ∧
    (Consumer.source c3consumer c3map c3rec.genLine c3rec.genColumn).ok = true ∧
    (Consumer.source c3consumer c3map c3rec.genLine c3rec.genColumn).line ≠ c3rec.sourceLine := by
  decide

/-- Claim C3 (amended: the record positions must be strictly increasing, i.e.
duplicate generated positions are excluded — with mere non-decreasing order the
lookup returns the first record at a duplicated position): looking up the
generated position of a record returns that record, resolved: found, its
original line and column, its resolved source when the source index is present
(else empty), and its rendered name when the name index is present (else
empty). -/
theorem c3_exact_lookup (c : Consumer) (m : sourceMap) (r : mapping)
    (hs : StrictSortedMappings m.mappings) (hr : r ∈ m.mappings)
    (hsrc : 0 ≤ r.sourcesInd → r.sourcesInd.toNat < m.Sources.length)
    (hname : 0 ≤ r.namesInd → r.namesInd.toNat < m.Names.length) :
    (Consumer.source c m r.genLine r.genColumn).ok = true ∧
    (Consumer.source c m r.genLine r.genColumn).line = r.sourceLine ∧
    (Consumer.source c m r.genLine r.genColumn).column = r.sourceColumn ∧
    (Consumer.source c m r.genLine r.genColumn).source =
      (if 0 ≤ r.sourcesInd then m.absSource (m.Sources.getD r.sourcesInd.toNat "") else "") ∧
    (Consumer.source c m r.genLine r.genColumn).name =
      (if 0 ≤ r.namesInd then renderName (m.Names.getD r.namesInd.toNat (NameEntry.str "")) else "") := by
  have hs2 : SortedMappings m.mappings := by
    unfold StrictSortedMappings at hs
    unfold SortedMappings
    refine hs.imp ?_
    intro a b hab
    unfold posLt at hab
    unfold posLe
    omega
  obtain ⟨kr, hkr, hgetr⟩ := List.getElem_of_mem hr
  have hstrict : ∀ j, j < kr →
      posLt (m.mappings.getD j default).genLine (m.mappings.getD j default).genColumn
        r.genLine r.genColumn := by
    intro j hj
    have hjlen : j < m.mappings.length := by omega
    rw [List.getD_eq_getElem _ _ hjlen]
    have hpair := (List.pairwise_iff_getElem.mp hs) j kr hjlen hkr hj
    rw [hgetr] at hpair
    exact hpair
  have hlbkr : lowerBoundIdx m.mappings r.genLine r.genColumn = kr := by
    unfold lowerBoundIdx
    have hple : (fun rr : mapping =>
        decide (posLe r.genLine r.genColumn rr.genLine rr.genColumn))
          (m.mappings.getD kr default) = true := by
      rw [List.getD_eq_getElem _ _ hkr, hgetr]
      exact decide_eq_true (posLe_rfl _ _)
    have hmin := findIdxMin (fun rr : mapping =>
      decide (posLe r.genLine r.genColumn rr.genLine rr.genColumn)) m.mappings kr hkr hple
    rcases Nat.lt_or_ge (m.mappings.findIdx fun rr =>
        decide (posLe r.genLine r.genColumn rr.genLine rr.genColumn)) kr with hflt | hfge
    · exfalso
      have hhit := findIdxHit (fun rr : mapping =>
        decide (posLe r.genLine r.genColumn rr.genLine rr.genColumn)) m.mappings (by omega)
      rw [decide_eq_true_eq] at hhit
      exact absurd hhit (not_posLe_of_posLt (hstrict _ hflt))
    · omega
  have hss : sortSearch m.mappings.length (goPred m.mappings r.genLine r.genColumn) = kr := by
    rw [sortSearchEqLowerBound m.mappings r.genLine r.genColumn hs2, hlbkr]
  have hnofuzz : ¬((m.mappings.getD kr default).genLine > r.genLine ∨
      (m.mappings.getD kr default).genColumn > r.genColumn) := by
    rw [List.getD_eq_getElem _ _ hkr, hgetr]
    omega
  have hsrcidx : m.sourceIdx r.genLine r.genColumn = some kr := by
    simp only [sourceMap.sourceIdx]
    rw [hss, if_neg (by omega), if_neg hnofuzz]
  have hmain : Consumer.source c m r.genLine r.genColumn = renderResult m r := by
    unfold Consumer.source
    rw [hsrcidx]
    show renderResult m (m.mappings.getD kr default) = renderResult m r
    rw [List.getD_eq_getElem _ _ hkr, hgetr]
  rw [hmain]
  exact ⟨rfl, rfl, rfl, rfl, rfl⟩

/-- Witness for the amended C3: looking up the generated position of the second
record of a concrete strictly sorted sub-map reproduces that record. -/
theorem c3_witness :
    (Consumer.source c3aconsumer c3amap 1 4).ok = true ∧
    (Consumer.source c3aconsumer c3amap 1 4).line = 7 := by
  have h := c3_exact_lookup c3aconsumer c3amap c3arec (by decide) (by decide)
    (by decide) (by decide)
  exact ⟨h.1, h.2.1⟩

/-- Claim C4: on a sorted record list, a record selected by the lookup is never
lexicographically past the query, and selection is monotone: a later-or-equal
query never selects an earlier record index. -/
theorem c4_selection_bounds (m : sourceMap) (hs : SortedMappings m.mappings) :
    (∀ (gl gc : Int) (k : Nat), m.sourceIdx gl gc = some k →
      posLe (m.mappings.getD k default).genLine (m.mappings.getD k default).genColumn gl gc) ∧
    (∀ (gl1 gc1 gl2 gc2 : Int) (k1 k2 : Nat), posLe gl1 gc1 gl2 gc2 →
      m.sourceIdx gl1 gc1 = some k1 → m.sourceIdx gl2 gc2 = some k2 → k1 ≤ k2) := by
  constructor
  · intro gl gc k h
    exact (sourceIdxSpec m gl gc k hs h).2.1
  · intro gl1 gc1 gl2 gc2 k1 k2 hq h1 h2
    obtain ⟨hk1len, hk1le, _⟩ := sourceIdxSpec m gl1 gc1 k1 hs h1
    obtain ⟨hk2len, hk2le, hk2min⟩ := sourceIdxSpec m gl2 gc2 k2 hs h2
    by_cases hlt : posLt (m.mappings.getD k1 default).genLine
        (m.mappings.getD k1 default).genColumn gl2 gc2
    · exact hk2min k1 hk1len hlt
    · have hle2 : posLe (m.mappings.getD k1 default).genLine
          (m.mappings.getD k1 default).genColumn gl2 gc2 := posLe_trans hk1le hq
      have heq2 : gl1 = gl2 ∧ gc1 = gc2 := by
        unfold posLe at hle2 hk1le hq
        unfold posLt at hlt
        omega
      rw [heq2.1, heq2.2] at h1
      rw [h1] at h2
      have := Option.some.inj h2
      omega

/-- Witness for C4: at a concrete sorted sub-map, the record selected for query
`(1, 3)` is at or before the query, and the strictly later query `(2, 0)`
selects a later record index. -/
theorem c4_witness :
    posLe (c4map.mappings.getD 0 default).genLine (c4map.mappings.getD 0 default).genColumn 1 3 ∧
    (0 : Nat) ≤ 2 := by
  have h := c4_selection_bounds c4map (by decide)
  exact ⟨h.1 1 3 0 (by decide), h.2 1 3 2 0 0 2 (by decide) (by decide) (by decide)⟩

/-- Claim C5: a version equal to 3 or 0 (absent) passes the check and every
other value fails with the version error carrying the offending value; the
check guards the sub-map parse, fires at the top level of `Parse` (version 2
yields exactly the version-2 error), and a successful `Parse` implies every
section sub-map carried an accepted version. -/
theorem c5_version_check (v : Int) :
    (checkVersion v = Except.ok () ↔ (v = 3 ∨ v = 0)) ∧
    (v ≠ 3 → v ≠ 0 → checkVersion v = Except.error (SmErr.unsupportedVersion v)) ∧
    (∀ (m : sourceMap) (mapURL : String), m.Version ≠ 3 → m.Version ≠ 0 →
      m.parse mapURL = Except.error (SmErr.unsupportedVersion m.Version)) ∧
    (∀ (doc : v3) (mapURL : String), doc.smap.Version = 2 →
      Parse mapURL doc = PResult.err (SmErr.unsupportedVersion 2)) ∧
    (∀ (doc : v3) (mapURL : String) (c : Consumer), Parse mapURL doc = PResult.ok c →
      (doc.smap.Version = 3 ∨ doc.smap.Version = 0) ∧
      (∀ s ∈ doc.Sections, ∀ mm, s.Map = some mm → (mm.Version = 3 ∨ mm.Version = 0))) := by
  have hparse_ok_version : ∀ (m : sourceMap) (mapURL : String) (m2 : sourceMap),
      m.parse mapURL = Except.ok m2 → (m.Version = 3 ∨ m.Version = 0) := by
    intro m mapURL m2 hp
    unfold sourceMap.parse at hp
    cases hcv : checkVersion m.Version with
    | error e => rw [hcv] at hp; cases hp
    | ok u =>
      unfold checkVersion at hcv
      by_cases hc : m.Version = 3 ∨ m.Version = 0
      · exact hc
      · rw [if_neg hc] at hcv; cases hcv
  have hsec : ∀ (mapURL : String) (ss : List SectionIn) (res : List Section),
      parseSections mapURL ss = PResult.ok res →
      ∀ s ∈ ss, ∀ mm, s.Map = some mm → (mm.Version = 3 ∨ mm.Version = 0) := by
    intro mapURL ss
    induction ss with
    | nil => intro res _ s hmem; cases hmem
    | cons s rest ih =>
      intro res hps t htmem mm hmm
      simp only [parseSections] at hps
      cases hmap : s.Map with
      | none => rw [hmap] at hps; cases hps
      | some m =>
        simp only [hmap] at hps
        cases hp : m.parse mapURL with
        | error e => rw [hp] at hps; cases hps
        | ok m2 =>
          rw [hp] at hps
          cases hrest : parseSections mapURL rest with
          | err e => rw [hrest] at hps; cases hps
          | nilPanic => rw [hrest] at hps; cases hps
          | ok ss2 =>
            rcases List.mem_cons.mp htmem with heq | hmemrest
            · subst heq
              rw [hmap] at hmm
              have hmmeq := Option.some.inj hmm
              subst hmmeq
              exact hparse_ok_version m mapURL m2 hp
            · exact ih ss2 hrest t hmemrest mm hmm
  refine ⟨?_, ?_, ?_, ?_, ?_⟩
  · unfold checkVersion
    by_cases hc : v = 3 ∨ v = 0
    · rw [if_pos hc]
      exact ⟨fun _ => hc, fun _ => rfl⟩
    · rw [if_neg hc]
      constructor
      · intro hh; cases hh
      · intro hh; exact absurd hh hc
  · intro h3 h0
    unfold checkVersion
    rw [if_neg (by omega)]
  · intro m mapURL h3 h0
    unfold sourceMap.parse checkVersion
    rw [if_neg (by omega)]
  · intro doc mapURL h2
    unfold Parse checkVersion
    rw [h2]
    rw [if_neg (by decide)]
  · intro doc mapURL c h
    simp only [Parse] at h
    cases hv : checkVersion doc.smap.Version with
    | error e => rw [hv] at h; cases h
    | ok u =>
      rw [hv] at h
      constructor
      · unfold checkVersion at hv
        by_cases hc : doc.smap.Version = 3 ∨ doc.smap.Version = 0
        · exact hc
        · rw [if_neg hc] at hv; cases hv
      · by_cases hemp : doc.Sections.isEmpty = true
        · intro s hsmem
          rw [List.isEmpty_iff] at hemp
          rw [hemp] at hsmem
          cases hsmem
        · rw [if_neg (by simp [hemp])] at h
          cases hps : parseSections mapURL doc.Sections with
          | err e => rw [hps] at h; cases h
          | nilPanic => rw [hps] at h; cases h
          | ok ss => exact hsec mapURL doc.Sections ss hps

/-- Witness for C5: version 3 passes, version 2 fails with the version error,
and the concrete version-2 document is rejected by `Parse`. -/
theorem c5_witness :
    checkVersion 3 = Except.ok () ∧
    checkVersion 2 = Except.error (SmErr.unsupportedVersion 2) ∧
    Parse "" c5doc2 = PResult.err (SmErr.unsupportedVersion 2) := by
  refine ⟨(c5_version_check 3).1.mpr (Or.inl rfl),
    (c5_version_check 2).2.1 (by decide) (by decide),
    (c5_version_check 2).2.2.2.1 c5doc2 "" rfl⟩

/-- Claim C7 (code bug): on an indexed document with a section lacking its
embedded map, construction neither returns a consumer nor an error — the Go
code calls `parse` through the nil map pointer and panics reading `m.Version`,
modelled by the `nilPanic` outcome, instead of failing with a malformed-document
error as the spec requires. -/
theorem c7_nil_map_panics : Parse "" c7doc = PResult.nilPanic := by
  decide

/-- Counterexample to C6 as stated: `sourceRoot` is the non-empty relative
string `foo` (not an absolute URL) and the origin is an absolute URL, yet after
a successful parse the resolved root is empty — the origin-directory fallback
is not applied, contrary to the claim that it applies whenever `sourceRoot` is
not an absolute URL, including when it is a non-empty relative string. -/
theorem c6_counterexample :
    isAbsURL c6map.SourceRoot = false ∧
    isAbsURL "http://example.com/a/b.map" = true ∧
    c6map.SourceRoot ≠ "" ∧
    ((c6map.parse "http://example.com/a/b.map").toOption.map
      (fun m2 : sourceMap => m2.sourceRootURL)) = some none := by
  decide

/-- Claim C6 (amended: the origin fallback applies only when `sourceRoot` is
empty — a non-empty `sourceRoot` that is not an absolute URL leaves the
resolved root empty without consulting the origin): after a successful parse,
an absolute `sourceRoot` URL is the resolved root; a non-empty non-absolute
`sourceRoot` leaves it empty; with an empty `sourceRoot`, an absolute origin
URL contributes its directory; otherwise it is empty. -/
theorem c6_root_resolution (m : sourceMap) (mapURL : String) (m2 : sourceMap)
    (h : m.parse mapURL = Except.ok m2) :
    (∀ u : GoURL, m.SourceRoot ≠ "" → urlParse m.SourceRoot = Except.ok u →
      u.IsAbs = true → m2.sourceRootURL = some u) ∧
    (∀ u : GoURL, m.SourceRoot ≠ "" → urlParse m.SourceRoot = Except.ok u →
      u.IsAbs = false → m2.sourceRootURL = none) ∧
    (∀ u : GoURL, m.SourceRoot = "" → mapURL ≠ "" → urlParse mapURL = Except.ok u →
      u.IsAbs = true → m2.sourceRootURL = some { u with Path := pathDir u.Path }) ∧
    (∀ u : GoURL, m.SourceRoot = "" → mapURL ≠ "" → urlParse mapURL = Except.ok u →
      u.IsAbs = false → m2.sourceRootURL = none) ∧
    (m.SourceRoot = "" → mapURL = "" → m2.sourceRootURL = none) := by
  unfold sourceMap.parse at h
  cases hcv : checkVersion m.Version with
  | error e => rw [hcv] at h; cases h
  | ok u0 =>
    rw [hcv] at h
    cases hr : resolveRootURL m.SourceRoot mapURL with
    | error e => rw [hr] at h; cases h
    | ok root =>
      rw [hr] at h
      cases hpm : parseMappings m.Mappings with
      | error e => rw [hpm] at h; cases h
      | ok ms =>
        rw [hpm] at h
        have hm2 := Except.ok.inj h
        have hroot : m2.sourceRootURL = root := by rw [← hm2]
        unfold resolveRootURL at hr
        refine ⟨?_, ?_, ?_, ?_, ?_⟩
        · intro u hne hup habs
          rw [if_pos hne] at hr
          simp only [hup] at hr
          rw [if_pos habs] at hr
          rw [hroot, ← Except.ok.inj hr]
        · intro u hne hup habs
          rw [if_pos hne] at hr
          simp only [hup] at hr
          rw [if_neg (by simp [habs])] at hr
          rw [hroot, ← Except.ok.inj hr]
        · intro u hempty hne hup habs
          rw [if_neg (by simp [hempty]), if_pos hne] at hr
          simp only [hup] at hr
          rw [if_pos habs] at hr
          rw [hroot, ← Except.ok.inj hr]
        · intro u hempty hne hup habs
          rw [if_neg (by simp [hempty]), if_pos hne] at hr
          simp only [hup] at hr
          rw [if_neg (by simp [habs])] at hr
          rw [hroot, ← Except.ok.inj hr]
        · intro hempty hurl
          rw [if_neg (by simp [hempty]), if_neg (by simp [hurl])] at hr
          rw [hroot, ← Except.ok.inj hr]

/-- Witness for the amended C6: with an empty `sourceRoot` and an absolute
origin URL, the resolved root is the origin directory. -/
theorem c6_witness :
    c6bparsed.sourceRootURL = some { Scheme := "http", OpaquePart := "", Host := "example.com"
                                   , Path := "/a" } := by
  have h := c6_root_resolution c6bmap "http://example.com/a/b.map" c6bparsed (by decide)
  exact h.2.2.1 { Scheme := "http", OpaquePart := "", Host := "example.com", Path := "/a/b.map" }
    rfl (by decide) (by decide) (by decide)

/-- Claim C8: `absSource` returns an absolute path or absolute URL unchanged;
otherwise a set resolved root receives the name by path-join on its url path
(rendered back as a url string); otherwise a non-empty raw `sourceRoot`
receives it by plain path join; otherwise the name passes through. -/
theorem c8_absSource_cases (m : sourceMap) (source : String) :
    (pathIsAbs source = true → m.absSource source = source) ∧
    (isAbsURL source = true → m.absSource source = source) ∧
    (∀ rootURL : GoURL, pathIsAbs source = false → isAbsURL source = false →
      m.sourceRootURL = some rootURL →
      m.absSource source =
        ({ rootURL with Path := pathJoin rootURL.Path source } : GoURL).urlString) ∧
    (pathIsAbs source = false → isAbsURL source = false → m.sourceRootURL = none →
      m.SourceRoot ≠ "" → m.absSource source = pathJoin m.SourceRoot source) ∧
    (pathIsAbs source = false → isAbsURL source = false → m.sourceRootURL = none →
      m.SourceRoot = "" → m.absSource source = source) := by
  refine ⟨?_, ?_, ?_, ?_, ?_⟩
  · intro hp
    unfold sourceMap.absSource
    rw [if_pos hp]
  · intro hu
    unfold sourceMap.absSource
    by_cases hp : pathIsAbs source = true
    · rw [if_pos hp]
    · rw [if_neg hp, if_pos hu]
  · intro rootURL hp hu hroot
    unfold sourceMap.absSource
    rw [if_neg (by simp [hp]), if_neg (by simp [hu]), hroot]
  · intro hp hu hroot hne
    unfold sourceMap.absSource
    rw [if_neg (by simp [hp]), if_neg (by simp [hu]), hroot]
    exact if_pos hne
  · intro hp hu hroot hempty
    unfold sourceMap.absSource
    rw [if_neg (by simp [hp]), if_neg (by simp [hu]), hroot]
    exact if_neg (by simp [hempty])

/-- Witness for C8: an absolute path passes through unchanged and a relative
name joins onto the raw `sourceRoot`. -/
theorem c8_witness :
    c8map.absSource "/abs/q.js" = "/abs/q.js" ∧ c8map.absSource "x.js" = "lib/x.js" := by
  refine ⟨(c8_absSource_cases c8map "/abs/q.js").1 (by decide), ?_⟩
  have h := (c8_absSource_cases c8map "x.js").2.2.2.1 (by decide) (by decide) (by decide) (by decide)
  rw [h]
  decide

/-- Claim C9: when the record selected by a lookup carries a name index, a
numeric `names` entry at that index renders as its minimal decimal integer
text, and a string entry passes through unchanged. -/
theorem c9_name_rendering (c : Consumer) (m : sourceMap) (gl gc : Int) (k : Nat)
    (hk : m.sourceIdx gl gc = some k) :
    (∀ n : Int, 0 ≤ (m.mappings.getD k default).namesInd →
      m.Names.getD (m.mappings.getD k default).namesInd.toNat (NameEntry.str "") =
        NameEntry.num n →
      (Consumer.source c m gl gc).name = toString n) ∧
    (∀ s : String, 0 ≤ (m.mappings.getD k default).namesInd →
      m.Names.getD (m.mappings.getD k default).namesInd.toNat (NameEntry.str "") =
        NameEntry.str s →
      (Consumer.source c m gl gc).name = s) := by
  have hsrc : Consumer.source c m gl gc = renderResult m (m.mappings.getD k default) := by
    unfold Consumer.source
    rw [hk]
  constructor
  · intro n hpos hentry
    rw [hsrc]
    show (if 0 ≤ (m.mappings.getD k default).namesInd then
        renderName (m.Names.getD (m.mappings.getD k default).namesInd.toNat (NameEntry.str ""))
      else "") = toString n
    rw [if_pos hpos, hentry]
    rfl
  · intro s hpos hentry
    rw [hsrc]
    show (if 0 ≤ (m.mappings.getD k default).namesInd then
        renderName (m.Names.getD (m.mappings.getD k default).namesInd.toNat (NameEntry.str ""))
      else "") = s
    rw [if_pos hpos, hentry]
    rfl

/-- Witness for C9: the numeric entry 42 renders as the text 42 (not 42.0) and
the string entry passes through. -/
theorem c9_witness :
    (Consumer.source c9consumer c9map 0 0).name = "42" ∧
    (Consumer.source c9consumer c9map 0 5).name = "alpha" := by
  constructor
  · have h := (c9_name_rendering c9consumer c9map 0 0 0 (by decide)).1 42 (by decide) (by decide)
    rw [h]
    decide
  · exact (c9_name_rendering c9consumer c9map 0 5 1 (by decide)).2 "alpha" (by decide) (by decide)

end sourcemap
